import Mathlib

/-!
Verification of the scholarship-watcher subscription flow.

The development shallowly embeds the two serverless functions of the
repository: the subscribe endpoint (`netlify/functions/subscribe.js`)
and the countries endpoint, together with the JavaScript string
builtins they rely on.  JavaScript builtins whose full behaviour is
irrelevant here (`JSON.parse` on request bodies, `URLSearchParams`,
`localeCompare`) are taken as parameters of the embedded functions;
the simple ones (`trim`, `toLowerCase`, `toUpperCase`, `split`,
`Set`-based deduplication) are embedded directly.
-/

namespace ScholarshipWatcher

/-- Whitespace recognised by JavaScript's `\s` regex class and by
`String.prototype.trim`: tab, LF, VT, FF, CR, space, NBSP, Ogham space,
U+2000 to U+200A, LS, PS, NNBSP, MMSP, ideographic space and BOM. -/
def isJsSpace (c : Char) : Bool :=
  let n := c.toNat
  n == 9 || n == 10 || n == 11 || n == 12 || n == 13 || n == 32 ||
  n == 160 || n == 5760 || (decide (8192 ≤ n) && decide (n ≤ 8202)) ||
  n == 8232 || n == 8233 || n == 8239 || n == 8287 || n == 12288 || n == 65279

/-- Model of `String.prototype.toUpperCase` (basic latin letters, the only
characters exercised by this code base). -/
def jsToUpper (s : String) : String :=
  ⟨s.data.map Char.toUpper⟩

/-- Model of `String.prototype.toLowerCase` (basic latin letters, the only
characters exercised by this code base). -/
def jsToLower (s : String) : String :=
  ⟨s.data.map Char.toLower⟩

/-- Model of `String.prototype.trim`: drop `isJsSpace` characters from both
ends. -/
def jsTrim (s : String) : String :=
  ⟨(s.data.dropWhile isJsSpace).rdropWhile isJsSpace⟩

/-- Split a character list at every occurrence of `sep`, keeping empty
segments, as JavaScript's `String.prototype.split` does. -/
def splitChar (sep : Char) : List Char → List (List Char)
  | [] => [[]]
  | c :: cs =>
    let r := splitChar sep cs
    if c == sep then [] :: r
    else
      match r with
      | [] => [[c]]
      | h :: t => (c :: h) :: t

/-- Model of `String.prototype.split` with a single-character separator:
`jsSplit "a,,b" ','` is `a`, ` `, `b` and `jsSplit "" ','` is the
singleton empty string. -/
def jsSplit (s : String) (sep : Char) : List String :=
  (splitChar sep s.data).map (fun l => ⟨l⟩)

/-- Model of `[...new Set(l)]`: deduplicate keeping the first occurrence of
each element, preserving order of first occurrences. -/
def jsSetDedup : List String → List String
  | [] => []
  | x :: xs => x :: jsSetDedup (xs.filter (fun y => !(y == x)))
termination_by l => l.length
decreasing_by
  simp only [List.length_cons]
  have h := List.length_filter_le (fun y => !(y == x)) xs
  omega

theorem mem_jsSetDedup {l : List String} {y : String} :
    y ∈ jsSetDedup l ↔ y ∈ l := by
  induction l using jsSetDedup.induct with
  | case1 => simp [jsSetDedup]
  | case2 x xs ih =>
    simp only [jsSetDedup, List.mem_cons, ih, List.mem_filter]
    constructor
    · rintro (rfl | ⟨hy, _⟩)
      · exact Or.inl rfl
      · exact Or.inr hy
    · rintro (rfl | hy)
      · exact Or.inl rfl
      · by_cases hxy : y = x
        · exact Or.inl hxy
        · exact Or.inr ⟨hy, by simp [hxy]⟩

theorem nodup_jsSetDedup (l : List String) : (jsSetDedup l).Nodup := by
  induction l using jsSetDedup.induct with
  | case1 => simp [jsSetDedup]
  | case2 x xs ih =>
    simp only [jsSetDedup, List.nodup_cons]
    refine ⟨fun hx => ?_, ih⟩
    rw [mem_jsSetDedup, List.mem_filter] at hx
    simp at hx

namespace Subscribe

/-- The per-subscriber record stored in `subscribers.json`. -/
structure Subscriber where
  email : String
  countries : List String
  created_at : String
  updated_at : Option String
  active : Bool
deriving DecidableEq

/-- The whole backing document of the subscriber store. -/
structure SubscriptionDocument where
  subscribers : List Subscriber
  last_updated : Option String
  version : String
deriving DecidableEq

/-- The default document used when the backing file does not exist:
`\x7b subscribers: [], last_updated: null, version: '1.0' \x7d`. -/
def emptyDoc : SubscriptionDocument :=
  ⟨[], none, "1.0"⟩

/-- State of the backing `subscribers.json` file as observed through
`fs.existsSync` followed by `JSON.parse`: missing, present but not valid
JSON (`JSON.parse` throws), or present with parsed contents. -/
inductive FileState where
  | absent
  | corrupt
  | stored (d : SubscriptionDocument)
deriving DecidableEq

/-- Embedding of `saveSubscriber`: load the document (empty default when
the file is absent, failure when it is corrupt), merge into an existing
record found by case-insensitive email comparison or append a new one,
refresh `last_updated`, and write back.  The `now` parameter stands for
`new Date().toISOString()`. -/
def saveSubscriber (fs : FileState) (newSubscriber : Subscriber) (now : String) :
    Bool × FileState :=
  match fs with
  | .corrupt => (false, .corrupt)
  | _ =>
    let data := match fs with | .stored d => d | _ => emptyDoc
    let subs :=
      match data.subscribers.findIdx?
          (fun s => jsToLower s.email == jsToLower newSubscriber.email) with
      | some i =>
        data.subscribers.modify
          (fun ex =>
            { ex with
              countries := jsSetDedup (ex.countries ++ newSubscriber.countries),
              active := true,
              updated_at := some now }) i
      | none => data.subscribers ++ [newSubscriber]
    (true, .stored ⟨subs, some now, data.version⟩)

/-- Value found at the `countries` key of a parsed request body.  The
code only distinguishes strings, arrays and anything else (which it
treats as no selection); the embedding covers the string and
string-array cases the endpoint is specified on. -/
inductive CountriesValue where
  | absent
  | str (s : String)
  | arr (l : List String)
deriving DecidableEq

/-- A parsed request body as consumed by the handler: its `email`,
`countries` and `created_at` keys. -/
structure Body where
  email : Option String
  countries : CountriesValue
  created_at : Option String
deriving DecidableEq

/-- The empty object a body-less request parses to. -/
def emptyBody : Body :=
  ⟨none, .absent, none⟩

/-- Model of `String.prototype.includes` for substring tests on the
content type. -/
def strIncludes (s sub : String) : Bool :=
  (List.range (s.data.length + 1)).any
    (fun i => (s.data.drop i).take sub.data.length == sub.data)

/-- Embedding of `parseBody`.  `jsonParseBody` stands for `JSON.parse`
on the raw body (`none` when it would throw); `formParseBody` stands for
the `URLSearchParams` loop, which never throws.  The result is `none`
exactly when an exception escapes (unparseable JSON under an
`application/json` content type). -/
def parseBody (jsonParseBody : String → Option Body) (formParseBody : String → Body)
    (body : Option String) (contentType : Option String) : Option Body :=
  match body with
  | none => some emptyBody
  | some b =>
    if b == "" then some emptyBody
    else if (match contentType with
             | some ct => strIncludes ct "application/json"
             | none => false) then
      jsonParseBody b
    else if (match contentType with
             | some ct => strIncludes ct "application/x-www-form-urlencoded"
             | none => false) then
      some (formParseBody b)
    else
      match jsonParseBody b with
      | some o => some o
      | none => some emptyBody

/-- Characters allowed in every segment of the email regex: the class
`[^\s@]`. -/
def nonSpaceAt (c : Char) : Bool :=
  !(isJsSpace c) && !(c == '@')

/-- Embedding of `isValidEmail`, i.e. of the test
`/^[^\s@]+@[^\s@]+\.[^\s@]+$/.test(email)`: there are positions `i < j`
carrying `'@'` and `'.'` such that the three segments before `i`,
between `i` and `j`, and after `j` are non-empty and consist of
non-space, non-`'@'` characters. -/
def isValidEmail (email : String) : Bool :=
  let cs := email.data
  (List.range cs.length).any (fun i =>
    (List.range cs.length).any (fun j =>
      decide (0 < i) && decide (i + 1 < j) && decide (j + 1 < cs.length) &&
      (cs.getD i ' ' == '@') && (cs.getD j ' ' == '.') &&
      (cs.take i).all nonSpaceAt &&
      ((cs.drop (i + 1)).take (j - i - 1)).all nonSpaceAt &&
      (cs.drop (j + 1)).all nonSpaceAt))

/-- The email shape stated by the specification: one or more
non-space/non-`'@'` characters, `'@'`, one or more non-space/non-`'@'`
characters, `'.'`, one or more non-space/non-`'@'` characters. -/
def specEmailPattern (email : String) : Prop :=
  ∃ a b c : List Char,
    email.data = a ++ '@' :: (b ++ '.' :: c) ∧
    a ≠ [] ∧ b ≠ [] ∧ c ≠ [] ∧
    (∀ x ∈ a, nonSpaceAt x) ∧ (∀ x ∈ b, nonSpaceAt x) ∧ (∀ x ∈ c, nonSpaceAt x)

/-- Embedding of the countries normalisation in the handler.
`jsonParseArr` stands for `JSON.parse` applied to the `countries` string
(`none` when it would throw, `some l` when it yields the array `l`).
On parse failure the string is split on commas and each piece trimmed,
uppercased and dropped when empty (`filter(Boolean)`); a native array is
uppercased element-wise. -/
def normalizeCountries (jsonParseArr : String → Option (List String)) :
    CountriesValue → List String
  | .absent => []
  | .str s =>
    match jsonParseArr s with
    | some l => l
    | none => ((jsSplit s ',').map (fun c => jsToUpper (jsTrim c))).filter
        (fun c => !(c == ""))
  | .arr l => l.map jsToUpper

/-- An inbound request as the handler sees it: HTTP method, the
`content-type` header, and the raw body. -/
structure Request where
  httpMethod : String
  contentType : Option String
  body : Option String
deriving DecidableEq

/-- Structured view of the JSON bodies the endpoint emits. -/
inductive ResponseBody where
  | err (msg : String)
  | ok (message : String) (email : String) (countries : List String)
deriving DecidableEq

/-- An HTTP response of the subscribe endpoint. -/
structure Response where
  statusCode : Nat
  responseBody : ResponseBody
deriving DecidableEq

/-- Embedding of the subscribe handler.  It threads the backing file
state through `saveSubscriber` and returns the response together with
the resulting file state.  `now` stands for `new Date().toISOString()`. -/
def handler (jsonParseBody : String → Option Body) (formParseBody : String → Body)
    (jsonParseArr : String → Option (List String))
    (req : Request) (fs : FileState) (now : String) : Response × FileState :=
  if !(req.httpMethod == "POST") then
    (⟨405, .err "Method not allowed"⟩, fs)
  else
    match parseBody jsonParseBody formParseBody req.body req.contentType with
    | none => (⟨500, .err "Internal server error"⟩, fs)
    | some body =>
      let createdAt := match body.created_at with
        | some s => if s == "" then now else s
        | none => now
      match body.email.map (fun s => jsToLower (jsTrim s)) with
      | none => (⟨400, .err "Invalid email address"⟩, fs)
      | some email =>
        if email == "" || !(isValidEmail email) then
          (⟨400, .err "Invalid email address"⟩, fs)
        else
          let countries := normalizeCountries jsonParseArr body.countries
          if countries.isEmpty then
            (⟨400, .err "At least one country must be selected"⟩, fs)
          else
            let res := saveSubscriber fs ⟨email, countries, createdAt, none, true⟩ now
            if res.1 then
              (⟨200, .ok "Subscription successful" email countries⟩, res.2)
            else
              (⟨500, .err "Failed to save subscription"⟩, res.2)

end Subscribe

namespace Countries

/-- A configured country: code, display name, and the optional
`enabled` flag (absent means enabled). -/
structure Country where
  code : String
  name : String
  enabled : Option Bool
deriving DecidableEq

/-- The countries configuration document. -/
structure CountriesConfig where
  countries : List Country
deriving DecidableEq

/-- Embedding of `getDefaultCountries`: the fixed fallback list used
when no configuration file exists. -/
def getDefaultCountries : CountriesConfig :=
  ⟨[⟨"NO", "Norway", some true⟩,
    ⟨"SE", "Sweden", some true⟩,
    ⟨"DE", "Germany", some true⟩,
    ⟨"NL", "Netherlands", some true⟩,
    ⟨"DK", "Denmark", some true⟩,
    ⟨"FI", "Finland", some true⟩,
    ⟨"FR", "France", some true⟩,
    ⟨"BE", "Belgium", some true⟩,
    ⟨"AT", "Austria", some true⟩,
    ⟨"CH", "Switzerland", some true⟩,
    ⟨"IT", "Italy", some true⟩,
    ⟨"ES", "Spain", some true⟩,
    ⟨"PT", "Portugal", some true⟩,
    ⟨"IE", "Ireland", some true⟩,
    ⟨"PL", "Poland", some true⟩,
    ⟨"CZ", "Czech Republic", some true⟩,
    ⟨"HU", "Hungary", some true⟩,
    ⟨"EU", "European Union", some true⟩]⟩

/-- State of the `config/countries.json` file as observed through
`fs.existsSync` followed by `JSON.parse`. -/
inductive ConfigFile where
  | absent
  | corrupt
  | stored (c : CountriesConfig)
deriving DecidableEq

/-- An entry of the countries endpoint response; `enabled` is always
emitted explicitly. -/
structure OutCountry where
  code : String
  name : String
  enabled : Bool
deriving DecidableEq

/-- Outcome of the countries endpoint: the 200 payload or the 500
error. -/
inductive CountriesResponse where
  | ok (countries : List OutCountry)
  | err
deriving DecidableEq

/-- Embedding of the countries handler: load the configuration (default
list when the file is absent, error when it is corrupt), keep entries
whose `enabled` is not `false`, emit them with `enabled: true`, and sort
by name.  `le` stands for the `localeCompare`-based comparator (`le a b`
meaning `a.localeCompare(b) ≤ 0`); the sort itself is a merge sort, a
valid model of `Array.prototype.sort` for a consistent comparator. -/
def handler (le : String → String → Bool) (cfg : ConfigFile) : CountriesResponse :=
  match cfg with
  | .corrupt => .err
  | _ =>
    let data := match cfg with | .stored c => c | _ => getDefaultCountries
    .ok ((((data.countries.filter (fun c => !(c.enabled == some false))).map
        (fun c => ⟨c.code, c.name, true⟩)).mergeSort
        (fun a b : OutCountry => le a.name b.name)))

end Countries

namespace Subscribe

theorem map_modify_of_comp {α β : Type} (f : α → α) (g : α → β)
    (h : ∀ x, g (f x) = g x) (i : Nat) (l : List α) :
    (l.modify f i).map g = l.map g := by
  apply List.ext_getElem?
  intro n
  simp only [List.getElem?_map, List.getElem?_modify]
  cases l[n]? with
  | none => rfl
  | some a =>
    by_cases hni : i = n <;> simp [hni, h]

/-- Unfolding of `saveSubscriber` in the merge case. -/
theorem saveSubscriber_stored_merge (d : SubscriptionDocument) (sub : Subscriber)
    (now : String) (i : Nat)
    (hf : d.subscribers.findIdx?
      (fun s => jsToLower s.email == jsToLower sub.email) = some i) :
    saveSubscriber (.stored d) sub now =
      (true, .stored
        ⟨d.subscribers.modify
          (fun ex =>
            { ex with
              countries := jsSetDedup (ex.countries ++ sub.countries),
              active := true,
              updated_at := some now }) i,
         some now, d.version⟩) := by
  simp only [saveSubscriber, hf]

/-- Unfolding of `saveSubscriber` in the append case. -/
theorem saveSubscriber_stored_append (d : SubscriptionDocument) (sub : Subscriber)
    (now : String)
    (hf : d.subscribers.findIdx?
      (fun s => jsToLower s.email == jsToLower sub.email) = none) :
    saveSubscriber (.stored d) sub now =
      (true, .stored ⟨d.subscribers ++ [sub], some now, d.version⟩) := by
  simp only [saveSubscriber, hf]

/-- Claim C7: a request whose HTTP method is not POST gets a 405 response
with body `error: Method not allowed`; the subscriber store is left
untouched and the request body is never consulted (any body gives the
same result). -/
theorem handler_non_post_405 (jp : String → Option Body) (fp : String → Body)
    (jpa : String → Option (List String)) (req : Request) (fs : FileState)
    (now : String) (hm : req.httpMethod ≠ "POST") :
    handler jp fp jpa req fs now = (⟨405, .err "Method not allowed"⟩, fs) ∧
    ∀ b, handler jp fp jpa ⟨req.httpMethod, req.contentType, b⟩ fs now =
      handler jp fp jpa req fs now := by
  have h : (req.httpMethod == "POST") = false := by
    simp [hm]
  refine ⟨by simp [handler, h], fun b => by simp [handler, h]⟩

/-- Witness for C7 at a concrete GET request. -/
theorem handler_non_post_405_witness :
    handler (fun _ => none) (fun _ => emptyBody) (fun _ => none)
        ⟨"GET", none, none⟩ .absent "T0" =
      (⟨405, .err "Method not allowed"⟩, .absent) ∧
    ∀ b, handler (fun _ => none) (fun _ => emptyBody) (fun _ => none)
        ⟨"GET", none, b⟩ .absent "T0" =
      handler (fun _ => none) (fun _ => emptyBody) (fun _ => none)
        ⟨"GET", none, none⟩ .absent "T0" :=
  handler_non_post_405 (fun _ => none) (fun _ => emptyBody) (fun _ => none)
    ⟨"GET", none, none⟩ .absent "T0" (by decide)

/-- Claim C9: a successful save on a stored document never removes or
reorders subscribers: the email sequence is unchanged (merge) or gains
exactly the new email at the end (insert), and the length stays the same
or grows by one. -/
theorem saveSubscriber_never_drops (d : SubscriptionDocument) (sub : Subscriber)
    (now : String) :
    ∃ d2, saveSubscriber (.stored d) sub now = (true, .stored d2) ∧
      ((d2.subscribers.map Subscriber.email = d.subscribers.map Subscriber.email ∧
        d2.subscribers.length = d.subscribers.length) ∨
       (d2.subscribers.map Subscriber.email =
          d.subscribers.map Subscriber.email ++ [sub.email] ∧
        d2.subscribers.length = d.subscribers.length + 1)) := by
  cases hf : d.subscribers.findIdx?
      (fun s => jsToLower s.email == jsToLower sub.email) with
  | some i =>
    refine ⟨_, saveSubscriber_stored_merge d sub now i hf, Or.inl ⟨?_, ?_⟩⟩
    · exact map_modify_of_comp
        (fun ex =>
          { ex with
            countries := jsSetDedup (ex.countries ++ sub.countries),
            active := true,
            updated_at := some now })
        Subscriber.email (fun x => rfl) i d.subscribers
    · simp
  | none =>
    refine ⟨_, saveSubscriber_stored_append d sub now hf, Or.inr ⟨by simp, by simp⟩⟩

/-- Claim C6: when the backing document exists but does not parse as
JSON, `saveSubscriber` fails without replacing the stored content, and a
well-formed subscription request then gets a 500 response with body
`error: Failed to save subscription` while the corrupt file is left in
place. -/
theorem saveSubscriber_corrupt_500 (jp : String → Option Body) (fp : String → Body)
    (jpa : String → Option (List String)) (req : Request) (b : Body) (e now : String)
    (hm : req.httpMethod = "POST")
    (hp : parseBody jp fp req.body req.contentType = some b)
    (he : b.email = some e)
    (hv : isValidEmail (jsToLower (jsTrim e)) = true)
    (hc : normalizeCountries jpa b.countries ≠ []) :
    (∀ (sub : Subscriber) (now2 : String),
      saveSubscriber .corrupt sub now2 = (false, .corrupt)) ∧
    handler jp fp jpa req .corrupt now =
      (⟨500, .err "Failed to save subscription"⟩, .corrupt) := by
  refine ⟨fun sub now2 => rfl, ?_⟩
  have hPost : (req.httpMethod == "POST") = true := by simp [hm]
  have hne : (jsToLower (jsTrim e) == "") = false := by
    rcases eq_or_ne (jsToLower (jsTrim e)) "" with h | h
    · rw [h] at hv
      exact absurd hv (by decide)
    · simp [h]
  have hce : (normalizeCountries jpa b.countries).isEmpty = false := by
    rcases h2 : normalizeCountries jpa b.countries with _ | ⟨x, xs⟩
    · exact absurd h2 hc
    · rfl
  simp [handler, hPost, hp, he, hne, hv, hce, saveSubscriber]

/-- Witness for C6 at a concrete valid JSON request against a corrupt
store. -/
theorem saveSubscriber_corrupt_500_witness :
    (∀ (sub : Subscriber) (now2 : String),
      saveSubscriber .corrupt sub now2 = (false, .corrupt)) ∧
    handler
      (fun s =>
        if s == "\x7b\"email\":\"a@b.c\",\"countries\":[\"NO\"]\x7d" then
          some ⟨some "a@b.c", .arr ["NO"], none⟩
        else none)
      (fun _ => emptyBody) (fun _ => none)
      ⟨"POST", some "application/json",
        some "\x7b\"email\":\"a@b.c\",\"countries\":[\"NO\"]\x7d"⟩ .corrupt "T0" =
      (⟨500, .err "Failed to save subscription"⟩, .corrupt) :=
  saveSubscriber_corrupt_500
    (fun s =>
      if s == "\x7b\"email\":\"a@b.c\",\"countries\":[\"NO\"]\x7d" then
        some ⟨some "a@b.c", .arr ["NO"], none⟩
      else none)
    (fun _ => emptyBody) (fun _ => none)
    ⟨"POST", some "application/json",
      some "\x7b\"email\":\"a@b.c\",\"countries\":[\"NO\"]\x7d"⟩
    ⟨some "a@b.c", .arr ["NO"], none⟩ "a@b.c" "T0"
    rfl (by decide) rfl (by decide) (by decide)

/-- Claim C10: an absent or empty body parses to the empty object and a
POST with no body is answered 400 `Invalid email address` rather than
500; with no recognised content type, a body whose JSON parse fails also
falls back to the empty object, so no parse exception escapes. -/
theorem parseBody_fallback_400 (jp : String → Option Body) (fp : String → Body)
    (jpa : String → Option (List String)) (ct : Option String) (fs : FileState)
    (now : String) :
    parseBody jp fp none ct = some emptyBody ∧
    parseBody jp fp (some "") ct = some emptyBody ∧
    handler jp fp jpa ⟨"POST", ct, none⟩ fs now =
      (⟨400, .err "Invalid email address"⟩, fs) ∧
    (∀ bs : String, bs ≠ "" →
      (match ct with | some c => strIncludes c "application/json" | none => false)
        = false →
      (match ct with
       | some c => strIncludes c "application/x-www-form-urlencoded"
       | none => false) = false →
      jp bs = none →
      parseBody jp fp (some bs) ct = some emptyBody) := by
  refine ⟨rfl, by simp [parseBody], by simp [handler, parseBody, emptyBody], ?_⟩
  intro bs hbs h1 h2 hjp
  have hbs2 : (bs == "") = false := by simp [hbs]
  simp [parseBody, hbs2, h1, h2, hjp]

/-- Witness for C10 with no content type and an unparseable body. -/
theorem parseBody_fallback_400_witness :
    parseBody (fun _ => none) (fun _ => emptyBody) none none = some emptyBody ∧
    parseBody (fun _ => none) (fun _ => emptyBody) (some "") none = some emptyBody ∧
    handler (fun _ => none) (fun _ => emptyBody) (fun _ => none)
      ⟨"POST", none, none⟩ .absent "T0" =
      (⟨400, .err "Invalid email address"⟩, .absent) ∧
    parseBody (fun _ => none) (fun _ => emptyBody) (some "notjson") none =
      some emptyBody := by
  have h := parseBody_fallback_400 (fun _ => none) (fun _ => emptyBody)
    (fun _ => none) none .absent "T0"
  exact ⟨h.1, h.2.1, h.2.2.1, h.2.2.2 "notjson" (by decide) rfl rfl rfl⟩

theorem modify_append_singleton {α : Type} (l : List α) (x : α) (f : α → α) :
    (l ++ [x]).modify f l.length = l ++ [f x] := by
  induction l with
  | nil => rfl
  | cons a l ih => simpa using ih

/-- Claim C1: saving the same email twice, first with countries `ab` and
then with countries `bc`, into a document that does not yet hold that
email, leaves exactly one record for that email; its country list is the
duplicate-free union of `ab` and `bc` and its `active` flag is true. -/
theorem saveSubscriber_twice_merges
    (d : SubscriptionDocument) (e n1 n2 t1 t2 : String) (ab bc : List String)
    (hfresh : ∀ s ∈ d.subscribers, jsToLower s.email ≠ jsToLower e) :
    ∃ d2 : SubscriptionDocument,
      saveSubscriber (saveSubscriber (.stored d) ⟨e, ab, t1, none, true⟩ n1).2
          ⟨e, bc, t2, none, true⟩ n2 = (true, .stored d2) ∧
      ∃ r : Subscriber,
        d2.subscribers.filter (fun s => jsToLower s.email == jsToLower e) = [r] ∧
        (∀ x, x ∈ r.countries ↔ (x ∈ ab ∨ x ∈ bc)) ∧
        r.countries.Nodup ∧ r.active = true := by
  have hf1 : d.subscribers.findIdx?
      (fun s => jsToLower s.email == jsToLower e) = none := by
    rw [List.findIdx?_eq_none_iff]
    intro s hs
    exact beq_eq_false_iff_ne.mpr (hfresh s hs)
  have h1 := saveSubscriber_stored_append d ⟨e, ab, t1, none, true⟩ n1 hf1
  rw [h1]
  have hf2 : (d.subscribers ++ [(⟨e, ab, t1, none, true⟩ : Subscriber)]).findIdx?
      (fun s => jsToLower s.email == jsToLower e) = some d.subscribers.length := by
    rw [List.findIdx?_append, hf1]
    simp
  have h2 := saveSubscriber_stored_merge
    ⟨d.subscribers ++ [⟨e, ab, t1, none, true⟩], some n1, d.version⟩
    ⟨e, bc, t2, none, true⟩ n2 d.subscribers.length hf2
  refine ⟨_, h2, ⟨e, jsSetDedup (ab ++ bc), t1, some n2, true⟩, ?_, ?_,
    nodup_jsSetDedup _, rfl⟩
  · show ((d.subscribers ++ [(⟨e, ab, t1, none, true⟩ : Subscriber)]).modify _
        d.subscribers.length).filter _ = _
    rw [modify_append_singleton, List.filter_append]
    have hl : d.subscribers.filter
        (fun s => jsToLower s.email == jsToLower e) = [] := by
      rw [List.filter_eq_nil_iff]
      intro s hs
      simp [hfresh s hs]
    rw [hl]
    simp
  · intro x
    rw [mem_jsSetDedup, List.mem_append]

/-- Witness for C1 on a document holding one unrelated subscriber. -/
theorem saveSubscriber_twice_merges_witness :
    ∃ d2 : SubscriptionDocument,
      saveSubscriber
          (saveSubscriber
            (.stored ⟨[⟨"x@y.z", ["NO"], "T", none, true⟩], none, "1.0"⟩)
            ⟨"a@b.c", ["A", "B"], "T1", none, true⟩ "T1").2
          ⟨"a@b.c", ["B", "C"], "T2", none, true⟩ "T2" = (true, .stored d2) ∧
      ∃ r : Subscriber,
        d2.subscribers.filter
          (fun s => jsToLower s.email == jsToLower "a@b.c") = [r] ∧
        (∀ x, x ∈ r.countries ↔ (x ∈ ["A", "B"] ∨ x ∈ ["B", "C"])) ∧
        r.countries.Nodup ∧ r.active = true :=
  saveSubscriber_twice_merges
    ⟨[⟨"x@y.z", ["NO"], "T", none, true⟩], none, "1.0"⟩
    "a@b.c" "T1" "T2" "T1" "T2" ["A", "B"] ["B", "C"]
    (by decide)

/-- At most one record per lowercase email: pairwise distinct lowercased
emails in the subscriber sequence. -/
def emailUnique (l : List Subscriber) : Prop :=
  l.Pairwise (fun a b => jsToLower a.email ≠ jsToLower b.email)

theorem emailUnique_iff_map (l : List Subscriber) :
    emailUnique l ↔
      (l.map (fun s => jsToLower s.email)).Pairwise (fun a b => a ≠ b) :=
  (List.pairwise_map).symm

/-- Claim C2: a successful save on a document with at most one record
per lowercase email yields a document still satisfying that invariant. -/
theorem saveSubscriber_preserves_uniqueness (d : SubscriptionDocument)
    (sub : Subscriber) (now : String)
    (hu : emailUnique d.subscribers)
    (hnorm : jsToLower sub.email = sub.email) :
    ∃ d2, saveSubscriber (.stored d) sub now = (true, .stored d2) ∧
      emailUnique d2.subscribers := by
  cases hf : d.subscribers.findIdx?
      (fun s => jsToLower s.email == jsToLower sub.email) with
  | some i =>
    refine ⟨_, saveSubscriber_stored_merge d sub now i hf, ?_⟩
    rw [emailUnique_iff_map]
    show ((d.subscribers.modify _ i).map (fun s => jsToLower s.email)).Pairwise _
    rw [map_modify_of_comp
      (fun ex =>
        { ex with
          countries := jsSetDedup (ex.countries ++ sub.countries),
          active := true,
          updated_at := some now })
      (fun s => jsToLower s.email) (fun x => rfl) i d.subscribers]
    exact (emailUnique_iff_map d.subscribers).mp hu
  | none =>
    refine ⟨_, saveSubscriber_stored_append d sub now hf, ?_⟩
    show emailUnique (d.subscribers ++ [sub])
    rw [emailUnique, List.pairwise_append]
    refine ⟨hu, List.pairwise_singleton _ _, ?_⟩
    intro a ha b hb
    have hb2 : b = sub := by simpa using hb
    subst hb2
    have hne := List.findIdx?_eq_none_iff.mp hf a ha
    exact beq_eq_false_iff_ne.mp hne

/-- Witness for C2 on a one-record document and a fresh, lowercased
subscriber. -/
theorem saveSubscriber_preserves_uniqueness_witness :
    ∃ d2, saveSubscriber
        (.stored ⟨[⟨"x@y.z", ["NO"], "T", none, true⟩], none, "1.0"⟩)
        ⟨"a@b.c", ["SE"], "T1", none, true⟩ "T1" = (true, .stored d2) ∧
      emailUnique d2.subscribers :=
  saveSubscriber_preserves_uniqueness
    ⟨[⟨"x@y.z", ["NO"], "T", none, true⟩], none, "1.0"⟩
    ⟨"a@b.c", ["SE"], "T1", none, true⟩ "T1"
    (by rw [emailUnique]; decide) (by decide)

theorem last_updated_of_save {fs : FileState} {s2 : Subscriber} {n2 : String}
    {d3 : SubscriptionDocument} (h : saveSubscriber fs s2 n2 = (true, .stored d3)) :
    d3.last_updated = some n2 := by
  cases fs with
  | corrupt => simp [saveSubscriber] at h
  | absent =>
    have h2 : FileState.stored ⟨[s2], some n2, "1.0"⟩ = FileState.stored d3 :=
      congrArg Prod.snd h
    cases FileState.stored.inj h2
    rfl
  | stored d0 =>
    cases hf0 : d0.subscribers.findIdx?
        (fun s => jsToLower s.email == jsToLower s2.email) with
    | some k =>
      rw [saveSubscriber_stored_merge d0 s2 n2 k hf0] at h
      cases FileState.stored.inj (congrArg Prod.snd h)
      rfl
    | none =>
      rw [saveSubscriber_stored_append d0 s2 n2 hf0] at h
      cases FileState.stored.inj (congrArg Prod.snd h)
      rfl

/-- Claim C8: a merge leaves the matched record's `created_at` and its
position untouched, every other record unchanged, and the length equal,
while `last_updated` is refreshed on this save and on every successful
save, merge or insert. -/
theorem saveSubscriber_merge_frame (d : SubscriptionDocument) (sub : Subscriber)
    (now : String) (i : Nat)
    (hfind : d.subscribers.findIdx?
      (fun s => jsToLower s.email == jsToLower sub.email) = some i) :
    ∃ d2, saveSubscriber (.stored d) sub now = (true, .stored d2) ∧
      d2.subscribers.length = d.subscribers.length ∧
      (d2.subscribers[i]?).map Subscriber.created_at =
        (d.subscribers[i]?).map Subscriber.created_at ∧
      (∀ j : Nat, (d2.subscribers[j]?).map Subscriber.email =
        (d.subscribers[j]?).map Subscriber.email) ∧
      (∀ j : Nat, j ≠ i → d2.subscribers[j]? = d.subscribers[j]?) ∧
      d2.last_updated = some now ∧
      (∀ (fs : FileState) (s2 : Subscriber) (n2 : String) (d3 : SubscriptionDocument),
        saveSubscriber fs s2 n2 = (true, .stored d3) → d3.last_updated = some n2) := by
  refine ⟨_, saveSubscriber_stored_merge d sub now i hfind, by simp, ?_, ?_, ?_, rfl,
    fun fs s2 n2 d3 h => last_updated_of_save h⟩
  · show ((d.subscribers.modify _ i)[i]?).map Subscriber.created_at = _
    rw [List.getElem?_modify_eq]
    cases d.subscribers[i]? <;> rfl
  · intro j
    show ((d.subscribers.modify _ i)[j]?).map Subscriber.email = _
    rw [List.getElem?_modify]
    cases d.subscribers[j]? with
    | none => rfl
    | some a => by_cases h : i = j <;> simp [h]
  · intro j hj
    show (d.subscribers.modify _ i)[j]? = _
    rw [List.getElem?_modify]
    cases d.subscribers[j]? with
    | none => rfl
    | some a => simp [Ne.symm hj]

/-- Witness for C8 at a concrete merge (case-insensitive match at index
zero). -/
theorem saveSubscriber_merge_frame_witness :
    ∃ d2, saveSubscriber
        (.stored ⟨[⟨"A@b.c", ["NO"], "T0", none, false⟩], none, "1.0"⟩)
        ⟨"a@b.c", ["SE"], "T1", none, true⟩ "T1" = (true, .stored d2) ∧
      d2.subscribers.length =
        ([(⟨"A@b.c", ["NO"], "T0", none, false⟩ : Subscriber)]).length ∧
      (d2.subscribers[0]?).map Subscriber.created_at =
        (([(⟨"A@b.c", ["NO"], "T0", none, false⟩ : Subscriber)])[0]?).map
          Subscriber.created_at ∧
      (∀ j : Nat, (d2.subscribers[j]?).map Subscriber.email =
        (([(⟨"A@b.c", ["NO"], "T0", none, false⟩ : Subscriber)])[j]?).map
          Subscriber.email) ∧
      (∀ j : Nat, j ≠ 0 → d2.subscribers[j]? =
        ([(⟨"A@b.c", ["NO"], "T0", none, false⟩ : Subscriber)])[j]?) ∧
      d2.last_updated = some "T1" ∧
      (∀ (fs : FileState) (s2 : Subscriber) (n2 : String) (d3 : SubscriptionDocument),
        saveSubscriber fs s2 n2 = (true, .stored d3) → d3.last_updated = some n2) :=
  saveSubscriber_merge_frame
    ⟨[⟨"A@b.c", ["NO"], "T0", none, false⟩], none, "1.0"⟩
    ⟨"a@b.c", ["SE"], "T1", none, true⟩ "T1" 0 (by decide)

theorem getElem?_append_cons {α : Type} (a : List α) (x : α) (r : List α) :
    (a ++ x :: r)[a.length]? = some x := by
  rw [List.getElem?_append_right (Nat.le_refl a.length)]
  simp

theorem isValidEmail_iff_spec (s : String) :
    isValidEmail s = true ↔ specEmailPattern s := by
  constructor
  · intro h
    simp only [isValidEmail, List.any_eq_true, List.mem_range, Bool.and_eq_true,
      decide_eq_true_eq, beq_iff_eq, List.all_eq_true] at h
    obtain ⟨i, hilt, j, hjlt, hrest⟩ := h
    obtain ⟨⟨⟨⟨⟨⟨⟨h0, h1⟩, h2⟩, hat⟩, hdot⟩, hA⟩, hB⟩, hC⟩ := hrest
    have hilen : i < s.data.length := by omega
    have hjlen : j < s.data.length := by omega
    rw [List.getD_eq_getElem?_getD, List.getElem?_eq_getElem hilen] at hat
    rw [List.getD_eq_getElem?_getD, List.getElem?_eq_getElem hjlen] at hdot
    simp only [Option.getD_some] at hat hdot
    refine ⟨s.data.take i, (s.data.drop (i + 1)).take (j - i - 1),
      s.data.drop (j + 1), ?_, ?_, ?_, ?_, hA, hB, hC⟩
    · conv_lhs => rw [← List.take_append_drop i s.data]
      congr 1
      rw [List.drop_eq_getElem_cons hilen, hat]
      congr 1
      conv_lhs => rw [← List.take_append_drop (j - i - 1) (s.data.drop (i + 1))]
      congr 1
      rw [List.drop_drop]
      have hji : i + 1 + (j - i - 1) = j := by omega
      rw [hji, List.drop_eq_getElem_cons hjlen, hdot]
    · apply List.ne_nil_of_length_pos
      rw [List.length_take]
      omega
    · apply List.ne_nil_of_length_pos
      rw [List.length_take, List.length_drop]
      omega
    · apply List.ne_nil_of_length_pos
      rw [List.length_drop]
      omega
  · rintro ⟨a, b, c, hdec, ha0, hb0, hc0, hA, hB, hC⟩
    have hapos : 0 < a.length := List.length_pos.mpr ha0
    have hbpos : 0 < b.length := List.length_pos.mpr hb0
    have hcpos : 0 < c.length := List.length_pos.mpr hc0
    have hlen : s.data.length = a.length + 1 + b.length + 1 + c.length := by
      rw [hdec]
      simp only [List.length_append, List.length_cons]
      omega
    have hre : a ++ '@' :: (b ++ '.' :: c) = (a ++ '@' :: b) ++ '.' :: c := by
      simp
    have hre2 : a ++ '@' :: (b ++ '.' :: c) = (a ++ ['@']) ++ (b ++ '.' :: c) := by
      simp
    have hre3 : a ++ '@' :: (b ++ '.' :: c) = ((a ++ ['@']) ++ (b ++ ['.'])) ++ c := by
      simp
    simp only [isValidEmail, List.any_eq_true, List.mem_range, Bool.and_eq_true,
      decide_eq_true_eq, beq_iff_eq, List.all_eq_true]
    refine ⟨a.length, by omega, a.length + 1 + b.length, by omega,
      ⟨⟨⟨⟨⟨⟨⟨(by omega), (by omega)⟩, (by omega)⟩, ?_⟩, ?_⟩, ?_⟩, ?_⟩, ?_⟩⟩
    · rw [List.getD_eq_getElem?_getD, hdec, getElem?_append_cons]
      rfl
    · have hlen2 : a.length + 1 + b.length = (a ++ '@' :: b).length := by
        simp only [List.length_append, List.length_cons]
        omega
      rw [List.getD_eq_getElem?_getD, hdec, hre, hlen2, getElem?_append_cons]
      rfl
    · rw [hdec, List.take_left' rfl]
      exact hA
    · have hidx : a.length + 1 + b.length - a.length - 1 = b.length := by omega
      rw [hidx, hdec, hre2,
        List.drop_left' (by simp : (a ++ ['@']).length = a.length + 1),
        List.take_left' rfl]
      exact hB
    · rw [hdec, hre3, List.drop_left'
        (by simp only [List.length_append, List.length_cons, List.length_nil]; omega)]
      exact hC

/-- Claim C4: the email validator accepts exactly the strings of the
structural shape `[^\s@]+ @ [^\s@]+ . [^\s@]+`; strings without an
`'@'`, or without a `'.'` strictly after an `'@'`, are rejected; and a
POST whose parsed body has a missing or invalid email is answered 400
`Invalid email address`. -/
theorem isValidEmail_matches_spec :
    (∀ s : String, isValidEmail s = true ↔ specEmailPattern s) ∧
    (∀ s : String, '@' ∉ s.data → isValidEmail s = false) ∧
    (∀ s : String,
      (∀ i j : Nat, s.data[i]? = some '@' → s.data[j]? = some '.' → j ≤ i) →
      isValidEmail s = false) ∧
    (∀ (jp : String → Option Body) (fp : String → Body)
        (jpa : String → Option (List String)) (req : Request) (b : Body)
        (fs : FileState) (now : String),
      req.httpMethod = "POST" →
      parseBody jp fp req.body req.contentType = some b →
      (b.email = none ∨
        ∃ e, b.email = some e ∧ isValidEmail (jsToLower (jsTrim e)) = false) →
      handler jp fp jpa req fs now = (⟨400, .err "Invalid email address"⟩, fs)) := by
  refine ⟨isValidEmail_iff_spec, ?_, ?_, ?_⟩
  · intro s hat
    cases hv : isValidEmail s with
    | false => rfl
    | true =>
      exfalso
      obtain ⟨a, b, c, hdec, -, -, -, -, -, -⟩ := (isValidEmail_iff_spec s).mp hv
      apply hat
      rw [hdec]
      simp
  · intro s h
    cases hv : isValidEmail s with
    | false => rfl
    | true =>
      exfalso
      obtain ⟨a, b, c, hdec, -, -, -, -, -, -⟩ := (isValidEmail_iff_spec s).mp hv
      have h1 : s.data[a.length]? = some '@' := by
        rw [hdec]
        exact getElem?_append_cons a '@' (b ++ '.' :: c)
      have h2 : s.data[a.length + 1 + b.length]? = some '.' := by
        have hre : a ++ '@' :: (b ++ '.' :: c) = (a ++ '@' :: b) ++ '.' :: c := by
          simp
        have hlen2 : a.length + 1 + b.length = (a ++ '@' :: b).length := by
          simp only [List.length_append, List.length_cons]
          omega
        rw [hdec, hre, hlen2]
        exact getElem?_append_cons (a ++ '@' :: b) '.' c
      have := h (a.length) (a.length + 1 + b.length) h1 h2
      omega
  · intro jp fp jpa req b fs now hm hp hbad
    have hPost : (req.httpMethod == "POST") = true := by simp [hm]
    rcases hbad with he | ⟨e, he, hv⟩
    · simp [handler, hPost, hp, he]
    · simp [handler, hPost, hp, he, hv]

/-- Witness for C4 at concrete accepted and rejected emails and a
concrete invalid POST. -/
theorem isValidEmail_matches_spec_witness :
    (isValidEmail "a@b.c" = true ↔ specEmailPattern "a@b.c") ∧
    isValidEmail "nodomain" = false ∧
    isValidEmail "a@b" = false ∧
    handler (fun _ => none) (fun _ => emptyBody) (fun _ => none)
      ⟨"POST", none, some "bad"⟩ .absent "T0" =
      (⟨400, .err "Invalid email address"⟩, .absent) := by
  have h := isValidEmail_matches_spec
  refine ⟨h.1 "a@b.c", h.2.1 "nodomain" (by decide), h.2.2.1 "a@b" ?_, ?_⟩
  · intro i j hi hj
    exfalso
    have : '.' ∈ "a@b".data := List.getElem?_mem hj
    exact absurd this (by decide)
  · exact h.2.2.2 (fun _ => none) (fun _ => emptyBody) (fun _ => none)
      ⟨"POST", none, some "bad"⟩ emptyBody .absent "T0" rfl (by decide)
      (Or.inl rfl)

end Subscribe

theorem toNat_toUpper_of_lower (c : Char) (h1 : 97 ≤ c.toNat) (h2 : c.toNat ≤ 122) :
    (Char.toUpper c).toNat = c.toNat - 32 := by
  unfold Char.toUpper
  rw [if_pos ⟨h1, h2⟩]
  have hv : (c.toNat - 32).isValidChar := Or.inl (by omega)
  rw [Char.ofNat, dif_pos hv]
  rfl

theorem toUpper_eq_self_of_not_lower (c : Char)
    (h : ¬(97 ≤ c.toNat ∧ c.toNat ≤ 122)) : Char.toUpper c = c := by
  unfold Char.toUpper
  rw [if_neg h]

theorem toUpper_toUpper (c : Char) : (Char.toUpper c).toUpper = c.toUpper := by
  by_cases h : 97 ≤ c.toNat ∧ c.toNat ≤ 122
  · apply toUpper_eq_self_of_not_lower
    have h1 := toNat_toUpper_of_lower c h.1 h.2
    omega
  · simp only [toUpper_eq_self_of_not_lower c h]

theorem isJsSpace_eq_false_of_ascii_alpha (c : Char) (h1 : 65 ≤ c.toNat)
    (h2 : c.toNat ≤ 122) : isJsSpace c = false := by
  simp only [isJsSpace, Bool.or_eq_false_iff, Bool.and_eq_false_iff,
    beq_eq_false_iff_ne, ne_eq, decide_eq_false_iff_not]
  omega

theorem isJsSpace_toUpper (c : Char) : isJsSpace (Char.toUpper c) = isJsSpace c := by
  by_cases h : 97 ≤ c.toNat ∧ c.toNat ≤ 122
  · have h1 := toNat_toUpper_of_lower c h.1 h.2
    rw [isJsSpace_eq_false_of_ascii_alpha c (by omega) (by omega),
      isJsSpace_eq_false_of_ascii_alpha (Char.toUpper c) (by omega) (by omega)]
  · rw [toUpper_eq_self_of_not_lower c h]

theorem jsToUpper_idem (s : String) : jsToUpper (jsToUpper s) = jsToUpper s := by
  show (⟨(s.data.map Char.toUpper).map Char.toUpper⟩ : String) = ⟨s.data.map Char.toUpper⟩
  rw [List.map_map]
  congr 1
  exact List.map_congr_left (fun x _ => toUpper_toUpper x)

theorem rdropWhile_map {α β : Type} (f : α → β) (p : β → Bool) (l : List α) :
    (l.map f).rdropWhile p = (l.rdropWhile (fun x => p (f x))).map f := by
  unfold List.rdropWhile
  rw [← List.map_reverse, List.dropWhile_map, ← List.map_reverse]
  rfl

theorem dropWhile_rdropWhile_dropWhile {α : Type} (p : α → Bool) (l : List α) :
    ((l.dropWhile p).rdropWhile p).dropWhile p = (l.dropWhile p).rdropWhile p := by
  rw [List.dropWhile_eq_self_iff]
  intro hl
  obtain ⟨r, hr⟩ := List.rdropWhile_prefix p (l.dropWhile p)
  have hm : 0 < (l.dropWhile p).length := by
    have hlen := congrArg List.length hr
    simp only [List.length_append] at hlen
    omega
  have h0 : ((l.dropWhile p).rdropWhile p)[0]? = (l.dropWhile p)[0]? := by
    conv_rhs => rw [← hr]
    exact (List.getElem?_append_left hl).symm
  rw [List.getElem?_eq_getElem hl, List.getElem?_eq_getElem hm] at h0
  have hget : ((l.dropWhile p).rdropWhile p).get ⟨0, hl⟩ =
      (l.dropWhile p).get ⟨0, hm⟩ := by
    simp only [List.get_eq_getElem]
    exact Option.some.inj h0
  rw [hget]
  exact List.dropWhile_get_zero_not p l hm

theorem jsTrim_jsToUpper_jsTrim (s : String) :
    jsTrim (jsToUpper (jsTrim s)) = jsToUpper (jsTrim s) := by
  show (⟨((((s.data.dropWhile isJsSpace).rdropWhile isJsSpace).map
      Char.toUpper).dropWhile isJsSpace).rdropWhile isJsSpace⟩ : String) =
    ⟨((s.data.dropWhile isJsSpace).rdropWhile isJsSpace).map Char.toUpper⟩
  congr 1
  rw [List.dropWhile_map,
    show (isJsSpace ∘ Char.toUpper) = isJsSpace from funext isJsSpace_toUpper,
    dropWhile_rdropWhile_dropWhile, rdropWhile_map,
    show (fun x => isJsSpace (Char.toUpper x)) = isJsSpace from funext isJsSpace_toUpper,
    List.rdropWhile_idempotent]

namespace Subscribe

/-- Counterexample to C3 as stated: a `countries` string that parses as
a JSON array is used verbatim, so the string `[\x22no\x22]` puts the
lowercase entry `no` into the stored subscriber even though uppercasing
would change it. -/
theorem normalizeCountries_json_branch_cx :
    normalizeCountries
        (fun s => if s == "[\"no\"]" then some ["no"] else none)
        (.str "[\"no\"]") = ["no"] ∧
    handler
      (fun s =>
        if s == "\x7b\"email\":\"a@b.c\",\"countries\":\"[\\\"no\\\"]\"\x7d" then
          some ⟨some "a@b.c", .str "[\"no\"]", none⟩
        else none)
      (fun _ => emptyBody)
      (fun s => if s == "[\"no\"]" then some ["no"] else none)
      ⟨"POST", some "application/json",
        some "\x7b\"email\":\"a@b.c\",\"countries\":\"[\\\"no\\\"]\"\x7d"⟩
      .absent "T0" =
      (⟨200, .ok "Subscription successful" "a@b.c" ["no"]⟩,
       .stored ⟨[⟨"a@b.c", ["no"], "T0", none, true⟩], some "T0", "1.0"⟩) ∧
    jsToUpper "no" ≠ "no" := by
  refine ⟨rfl, by decide, by decide⟩

/-- Claim C3 (amended): for a `countries` string on which `JSON.parse`
fails, the comma-split branch produces entries that are trimmed,
uppercased and non-empty (in particular `no,se` yields `NO, SE`), and an
empty normalised list is answered 400; but a string that `JSON.parse`
accepts as an array is used as-is, without trimming or uppercasing. -/
theorem normalizeCountries_amended :
    (∀ (jpa : String → Option (List String)) (s : String), jpa s = none →
      ∀ c ∈ normalizeCountries jpa (.str s),
        jsTrim c = c ∧ jsToUpper c = c ∧ c ≠ "") ∧
    (∀ (jpa : String → Option (List String)) (s : String) (l : List String),
      jpa s = some l → normalizeCountries jpa (.str s) = l) ∧
    (∀ jpa : String → Option (List String), jpa "no,se" = none →
      normalizeCountries jpa (.str "no,se") = ["NO", "SE"]) ∧
    (∀ (jp : String → Option Body) (fp : String → Body)
        (jpa : String → Option (List String)) (req : Request) (b : Body)
        (fs : FileState) (now e : String),
      req.httpMethod = "POST" →
      parseBody jp fp req.body req.contentType = some b →
      b.email = some e →
      isValidEmail (jsToLower (jsTrim e)) = true →
      normalizeCountries jpa b.countries = [] →
      handler jp fp jpa req fs now =
        (⟨400, .err "At least one country must be selected"⟩, fs)) := by
  refine ⟨?_, ?_, ?_, ?_⟩
  · intro jpa s hn c hc
    simp only [normalizeCountries, hn] at hc
    rw [List.mem_filter] at hc
    obtain ⟨hmem, hne⟩ := hc
    rw [List.mem_map] at hmem
    obtain ⟨piece, -, rfl⟩ := hmem
    exact ⟨jsTrim_jsToUpper_jsTrim piece, jsToUpper_idem (jsTrim piece),
      by simpa using hne⟩
  · intro jpa s l h
    simp [normalizeCountries, h]
  · intro jpa h
    simp only [normalizeCountries, h]
    rfl
  · intro jp fp jpa req b fs now e hm hp he hv hcn
    have hPost : (req.httpMethod == "POST") = true := by simp [hm]
    have hne : (jsToLower (jsTrim e) == "") = false := by
      rcases eq_or_ne (jsToLower (jsTrim e)) "" with h | h
      · rw [h] at hv
        exact absurd hv (by decide)
      · simp [h]
    simp [handler, hPost, hp, he, hne, hv, hcn]

/-- Witness for the amended C3 at concrete strings: a comma-split entry,
a JSON-parsed array used verbatim, the `no,se` example, and an empty
selection answered 400. -/
theorem normalizeCountries_amended_witness :
    (jsTrim "NO" = "NO" ∧ jsToUpper "NO" = "NO" ∧ "NO" ≠ "") ∧
    normalizeCountries (fun _ => some ["no"]) (.str "x") = ["no"] ∧
    normalizeCountries (fun _ => none) (.str "no,se") = ["NO", "SE"] ∧
    handler
      (fun s =>
        if s == "\x7b\"email\":\"x@y.z\",\"countries\":[]\x7d" then
          some ⟨some "x@y.z", .arr [], none⟩
        else none)
      (fun _ => emptyBody) (fun _ => none)
      ⟨"POST", some "application/json",
        some "\x7b\"email\":\"x@y.z\",\"countries\":[]\x7d"⟩ .absent "T0" =
      (⟨400, .err "At least one country must be selected"⟩, .absent) := by
  have h := normalizeCountries_amended
  refine ⟨h.1 (fun _ => none) "no, se" rfl "NO" (by decide),
    h.2.1 (fun _ => some ["no"]) "x" ["no"] rfl,
    h.2.2.1 (fun _ => none) rfl,
    h.2.2.2
      (fun s =>
        if s == "\x7b\"email\":\"x@y.z\",\"countries\":[]\x7d" then
          some ⟨some "x@y.z", .arr [], none⟩
        else none)
      (fun _ => emptyBody) (fun _ => none)
      ⟨"POST", some "application/json",
        some "\x7b\"email\":\"x@y.z\",\"countries\":[]\x7d"⟩
      ⟨some "x@y.z", .arr [], none⟩ .absent "T0" "x@y.z"
      rfl (by decide) rfl (by decide) rfl⟩

end Subscribe

namespace Countries

/-- The configuration the handler works from: the parsed file when it
exists, the built-in default otherwise (the `countriesData` local of the
source). -/
def effectiveConfig (cfg : ConfigFile) : CountriesConfig :=
  match cfg with
  | .stored c => c
  | _ => getDefaultCountries

/-- Claim C5: for any non-corrupt configuration the endpoint answers 200
with exactly the entries whose `enabled` is not `false`, each emitted
with `enabled: true`, sorted ascending by name under the comparator;
when the configuration file is absent the input is the fixed default of
exactly 18 countries, all enabled. -/
theorem countriesHandler_spec (le : String → String → Bool)
    (htrans : ∀ a b c : String, le a b = true → le b c = true → le a c = true)
    (htotal : ∀ a b : String, (le a b || le b a) = true) :
    (∀ cfg : ConfigFile, cfg ≠ .corrupt →
      ∃ out : List OutCountry, handler le cfg = .ok out ∧
        out.Pairwise (fun a b => le a.name b.name = true) ∧
        out.Perm
          (((effectiveConfig cfg).countries.filter
              (fun c => !(c.enabled == some false))).map
            (fun c => ⟨c.code, c.name, true⟩)) ∧
        (∀ o ∈ out, o.enabled = true)) ∧
    (∀ cfg : ConfigFile, cfg = .absent →
      effectiveConfig cfg = getDefaultCountries) ∧
    getDefaultCountries.countries.length = 18 ∧
    getDefaultCountries.countries.map Country.name =
      ["Norway", "Sweden", "Germany", "Netherlands", "Denmark", "Finland",
       "France", "Belgium", "Austria", "Switzerland", "Italy", "Spain",
       "Portugal", "Ireland", "Poland", "Czech Republic", "Hungary",
       "European Union"] ∧
    (∀ c ∈ getDefaultCountries.countries, c.enabled = some true) := by
  have main : ∀ base : CountriesConfig,
      ∃ out : List OutCountry,
        ((base.countries.filter (fun c => !(c.enabled == some false))).map
            (fun c => (⟨c.code, c.name, true⟩ : OutCountry))).mergeSort
          (fun a b : OutCountry => le a.name b.name) = out ∧
        out.Pairwise (fun a b => le a.name b.name = true) ∧
        out.Perm
          ((base.countries.filter (fun c => !(c.enabled == some false))).map
            (fun c => ⟨c.code, c.name, true⟩)) ∧
        (∀ o ∈ out, o.enabled = true) := by
    intro base
    refine ⟨_, rfl, ?_, ?_, ?_⟩
    · exact List.sorted_mergeSort
        (fun x y z hxy hyz => htrans x.name y.name z.name hxy hyz)
        (fun x y => htotal x.name y.name) _
    · exact List.mergeSort_perm _ _
    · intro o ho
      have hmem := (List.mergeSort_perm _ _).mem_iff.mp ho
      rw [List.mem_map] at hmem
      obtain ⟨c, -, rfl⟩ := hmem
      rfl
  refine ⟨?_, fun cfg h => by rw [h]; rfl, rfl, rfl, by decide⟩
  intro cfg hcfg
  cases cfg with
  | corrupt => exact absurd rfl hcfg
  | absent =>
    obtain ⟨out, hsort, hrest⟩ := main getDefaultCountries
    exact ⟨out, by rw [← hsort]; rfl, hrest⟩
  | stored c =>
    obtain ⟨out, hsort, hrest⟩ := main c
    exact ⟨out, by rw [← hsort]; rfl, hrest⟩

/-- Witness for C5 with the lexicographic string order as comparator and
an absent configuration file. -/
theorem countriesHandler_spec_witness :
    (∀ cfg : ConfigFile, cfg ≠ .corrupt →
      ∃ out : List OutCountry,
        handler (fun a b => decide (a ≤ b)) cfg = .ok out ∧
        out.Pairwise (fun a b => decide (a.name ≤ b.name) = true) ∧
        out.Perm
          (((effectiveConfig cfg).countries.filter
              (fun c => !(c.enabled == some false))).map
            (fun c => ⟨c.code, c.name, true⟩)) ∧
        (∀ o ∈ out, o.enabled = true)) ∧
    (∀ cfg : ConfigFile, cfg = .absent →
      effectiveConfig cfg = getDefaultCountries) ∧
    getDefaultCountries.countries.length = 18 ∧
    getDefaultCountries.countries.map Country.name =
      ["Norway", "Sweden", "Germany", "Netherlands", "Denmark", "Finland",
       "France", "Belgium", "Austria", "Switzerland", "Italy", "Spain",
       "Portugal", "Ireland", "Poland", "Czech Republic", "Hungary",
       "European Union"] ∧
    (∀ c ∈ getDefaultCountries.countries, c.enabled = some true) :=
  countriesHandler_spec (fun a b => decide (a ≤ b))
    (fun a b c hab hbc => by
      simp only [decide_eq_true_eq] at hab hbc ⊢
      exact le_trans hab hbc)
    (fun a b => by
      rcases le_total a b with h | h
      · simp [h]
      · simp [h])

end Countries

end ScholarshipWatcher
